import Mathlib

/-!
# Verification of the vbt-sim-live real-time pipeline

Shallow embedding of the precision-sensitive core of the repository:

* `scanner/bar_aggregator.py` — the per-symbol, calendar-aligned bar
  aggregator (`BarAggregator`);
* `execution/rate_limiter.py` — the token-bucket `RateLimiter`;
* `execution/order_manager.py` — `OrderManager.flatten_position`;
* `execution/signal_translator.py` — `SignalTranslator.should_enter_trade`
  and `SignalTranslator.process_signal`;
* `execution/crosstrade_client.py` — `CrossTradeClient._request`,
  the retry decorator, `get_positions` and `submit_order`.

Timestamps are modelled as absolute minutes plus a sub-minute remainder
(`Ts`); prices, volumes and clock values are embedded as rationals
(the Python floats are used as exact decimal quantities by the code paths
verified here).  Raised Python exceptions become `Except` errors, and calls
to collaborators (HTTP, order submission) become explicit effect lists.
-/

namespace VbtSimLive

/-! ## Timestamps

Python `datetime` values as used by `BarAggregator`: `m` is the absolute
minute count (so minute-of-hour is `m % 60`), `s` the sub-minute remainder
(seconds/microseconds, zeroed by `_floor_to_period`). -/

structure Ts where
  m : Nat
  s : Nat
deriving DecidableEq, Repr

/-- `bar_time + timedelta(minutes=1)` from `_is_period_complete`. -/
def nextMinute (t : Ts) : Ts := ⟨t.m + 1, t.s⟩

/-! ## Bars (`scanner/bar_aggregator.py` bar dicts) -/

structure Bar where
  symbol : String
  date : Ts
  date_l : Ts
  open_ : ℚ    -- `open` is a Lean keyword; this is the dict key "open"
  high : ℚ
  low : ℚ
  close : ℚ
  volume : ℚ
  cpl : Bool
deriving DecidableEq, Repr

/-- The mutable fields of a `BarAggregator` instance, plus its
configuration.  `period_minutes` is `target_tf.value // 60`. -/
structure AggState where
  symbol : String
  period_minutes : Nat
  current_bar : Option Bar
  period_start : Option Ts
  bars_in_period : List Bar
deriving DecidableEq, Repr

/-- `BarAggregator.__init__` (after the intraday check). -/
def mkAggregator (symbol : String) (period_minutes : Nat) : AggState :=
  ⟨symbol, period_minutes, none, none, []⟩

/-- `BarAggregator._floor_to_period`: floor the minute-of-hour to its
period bucket and zero the sub-minute part. -/
def _floor_to_period (t : Ts) (period_minutes : Nat) : Ts :=
  ⟨t.m - t.m % 60 + t.m % 60 / period_minutes * period_minutes, 0⟩

/-- `BarAggregator._is_new_period`.  The Python method reads
`self.period_start`, which is always set when it is called; the value is
passed here explicitly as `ps`. -/
def _is_new_period (period_minutes : Nat) (ps bar_time : Ts) : Bool :=
  decide (_floor_to_period bar_time period_minutes ≠ _floor_to_period ps period_minutes)

/-- `BarAggregator._is_period_complete`: the period is complete when the
next minute would start a new period. -/
def _is_period_complete (period_minutes : Nat) (ps bar_time : Ts) : Bool :=
  _is_new_period period_minutes ps (nextMinute bar_time)

/-- `BarAggregator._start_new_period`. -/
def _start_new_period (st : AggState) (bar : Bar) : AggState :=
  { st with
    period_start := some bar.date
    current_bar := some
      { symbol := st.symbol, date := bar.date, date_l := bar.date_l
        open_ := bar.open_, high := bar.high, low := bar.low
        close := bar.close, volume := bar.volume, cpl := true }
    bars_in_period := [bar] }

/-- `BarAggregator._add_to_current_period`.  The `some _, none` case is
unreachable from `add_bar` (whenever `current_bar` is set so is
`period_start`); Python would raise there, and the value chosen is
irrelevant to every theorem below. -/
def _add_to_current_period (st : AggState) (bar : Bar) : AggState :=
  match st.current_bar, st.period_start with
  | none, _ => _start_new_period st bar
  | some _, none => _start_new_period st bar
  | some cb, some ps =>
    if _is_new_period st.period_minutes ps bar.date then
      _start_new_period st bar
    else
      { st with
        current_bar := some
          { cb with
            high := max cb.high bar.high
            low := min cb.low bar.low
            close := bar.close
            volume := cb.volume + bar.volume
            date_l := bar.date_l }
        bars_in_period := st.bars_in_period ++ [bar] }

/-- `BarAggregator._complete_period` (the `RuntimeError` when no bar is
accumulated becomes an `Except.error`). -/
def _complete_period (st : AggState) : Except String (Bar × AggState) :=
  match st.current_bar with
  | none => .error "Cannot complete period - no current bar"
  | some cb =>
    .ok (cb, { st with current_bar := none, period_start := none, bars_in_period := [] })

/-- `BarAggregator.add_bar`: the raised `ValueError` on a symbol mismatch
becomes an `Except.error` paired with the unchanged state. -/
def add_bar (st : AggState) (bar : Bar) : Except String (Option Bar) × AggState :=
  if bar.symbol ≠ st.symbol then
    (.error "Bar symbol does not match aggregator symbol", st)
  else
    match st.period_start with
    | none => (.ok none, _start_new_period st bar)
    | some _ =>
      let st1 := _add_to_current_period st bar
      match st1.period_start with
      | none => (.error "unreachable", st1)
      | some ps1 =>
        if _is_period_complete st1.period_minutes ps1 bar.date then
          match _complete_period st1 with
          | .error e => (.error e, st1)
          | .ok (cb, st2) => (.ok (some cb), st2)
        else
          (.ok none, st1)

deriving instance DecidableEq for Except

/-- Feed a list of bars through `add_bar`, recording each call result. -/
def runBars : AggState → List Bar → List (Except String (Option Bar)) × AggState
  | st, [] => ([], st)
  | st, b :: rest =>
    let r := add_bar st b
    let rs := runBars r.2 rest
    (r.1 :: rs.1, rs.2)

/-- The completed bars returned by a run of `add_bar` calls. -/
def completedBars (rs : List (Except String (Option Bar))) : List Bar :=
  rs.filterMap fun r => match r with | .ok (some b) => some b | _ => none

/-- A simple one-minute bar used for concrete runs. -/
def mkMinuteBar (s : String) (t : Nat) (v : ℚ) : Bar :=
  { symbol := s, date := ⟨t, 0⟩, date_l := ⟨t, 0⟩
    open_ := 1, high := 2, low := 0, close := 1, volume := v, cpl := true }

/-! ## C4: symbol mismatch is an error and never mutates state -/

/-- **C4.** For every `BarAggregator` state and every bar whose symbol
differs from the aggregator's configured symbol, `add_bar` raises
(`ValueError`) and the aggregator's state (`current_bar`, `period_start`,
`bars_in_period`) after the call equals its state before the call. -/
theorem add_bar_symbol_mismatch (st : AggState) (bar : Bar)
    (h : bar.symbol ≠ st.symbol) :
    add_bar st bar = (.error "Bar symbol does not match aggregator symbol", st) := by
  simp [add_bar, h]

theorem add_bar_symbol_mismatch_witness :
    (mkMinuteBar "NQ.c.0" 570 100).symbol ≠ (mkAggregator "ES.c.0" 5).symbol ∧
      add_bar (mkAggregator "ES.c.0" 5) (mkMinuteBar "NQ.c.0" 570 100) =
        (.error "Bar symbol does not match aggregator symbol", mkAggregator "ES.c.0" 5) :=
  ⟨by decide, add_bar_symbol_mismatch _ _ (by decide)⟩

/-! ## C2: which call returns the completed 5-minute window

Six one-minute bars at 09:30 .. 09:35 (absolute minutes 570 .. 575) with
distinct OHLCV, into a 5-minute aggregator. -/

/-- The i-th one-minute bar of the concrete 5-minute run (09:30 + i). -/
def c2bar (i : Nat) : Bar :=
  { symbol := "ES.c.0", date := ⟨570 + i, 0⟩, date_l := ⟨570 + i, 0⟩
    open_ := 4500 + i, high := 4505 + i, low := 4495 + i
    close := 4502 + i, volume := 100, cpl := true }

/-- The run of the first five bars (09:30 .. 09:34). -/
def c2run5 : List (Except String (Option Bar)) × AggState :=
  runBars (mkAggregator "ES.c.0" 5) [c2bar 0, c2bar 1, c2bar 2, c2bar 3, c2bar 4]

/-- The full six-bar run (09:30 .. 09:35). -/
def c2run6 : List (Except String (Option Bar)) × AggState :=
  runBars (mkAggregator "ES.c.0" 5) [c2bar 0, c2bar 1, c2bar 2, c2bar 3, c2bar 4, c2bar 5]

/-- **C2 counterexample.** The claim says the completed 09:30–09:34 window
is the return value of the `add_bar` call for bar #6 (09:35).  In fact that
call returns `none`: the window was already returned by the call for bar #5
(09:34), whose result carries the completed bar. -/
theorem add_bar_sixth_call_returns_none :
    (add_bar c2run5.2 (c2bar 5)).1 = .ok none ∧
      (c2run5.1.getLast?).isSome ∧
      completedBars c2run5.1 ≠ [] := by
  norm_num [c2run5, runBars, add_bar, _add_to_current_period,
    _start_new_period, _complete_period, _is_period_complete, _is_new_period,
    _floor_to_period, nextMinute, mkAggregator, c2bar, completedBars]
  decide

/-- **C2 (amended).** For the six-bar run, the call for bar #5 (09:34, the
last bar inside the window) returns the completed 09:30–09:34 bar; its
close is bar #5's close, not bar #6's; the call for bar #6 (09:35) returns
`none`, and bar #6's OHLCV is accumulated into the next period only (after
the sixth call the in-progress period consists of bar #6 alone, and the
completed window's volume is the sum over bars #1–#5 only). -/
theorem add_bar_m5_completion_at_fifth_bar :
    c2run6.1 =
      [.ok none, .ok none, .ok none, .ok none,
        .ok (some { symbol := "ES.c.0", date := ⟨570, 0⟩, date_l := ⟨574, 0⟩
                    open_ := 4500, high := 4509, low := 4495
                    close := 4506, volume := 500, cpl := true }),
        .ok none] ∧
      (4506 : ℚ) = (c2bar 4).close ∧ (c2bar 5).close ≠ (4506 : ℚ) ∧
      (500 : ℚ) = (c2bar 0).volume + (c2bar 1).volume + (c2bar 2).volume
        + (c2bar 3).volume + (c2bar 4).volume ∧
      c2run6.2.bars_in_period = [c2bar 5] ∧
      c2run6.2.current_bar = some
        { symbol := "ES.c.0", date := ⟨575, 0⟩, date_l := ⟨575, 0⟩
          open_ := 4505, high := 4510, low := 4500
          close := 4507, volume := 100, cpl := true } := by
  norm_num [c2run6, runBars, add_bar, _add_to_current_period,
    _start_new_period, _complete_period, _is_period_complete, _is_new_period,
    _floor_to_period, nextMinute, mkAggregator, c2bar, completedBars]

/-! ## C3: behaviour on a data gap -/

/-- Two accumulated bars at 09:30 and 09:31, then a gap bar at 09:37 in the
next 5-minute bucket. -/
def c3run : List (Except String (Option Bar)) × AggState :=
  runBars (mkAggregator "ES.c.0" 5)
    [mkMinuteBar "ES.c.0" 570 100, mkMinuteBar "ES.c.0" 571 100,
      mkMinuteBar "ES.c.0" 577 50]

/-- **C3 counterexample.** The claim says the accumulated period is never
silently discarded without being returned, even for a bar in a later
calendar bucket.  Feeding 09:30, 09:31 and then 09:37 into a 5-minute
aggregator returns no completed bar at all, yet afterwards the in-progress
period holds only the 09:37 bar: the 09:30–09:31 accumulation (volume 200)
was dropped, and the gap bar was not appended to it. -/
theorem add_bar_gap_discards_accumulation :
    completedBars c3run.1 = [] ∧
      c3run.2.bars_in_period = [mkMinuteBar "ES.c.0" 577 50] ∧
      c3run.2.current_bar = some
        { symbol := "ES.c.0", date := ⟨577, 0⟩, date_l := ⟨577, 0⟩
          open_ := 1, high := 2, low := 0, close := 1, volume := 50, cpl := true } := by
  norm_num [c3run, runBars, add_bar, _add_to_current_period,
    _start_new_period, _complete_period, _is_period_complete, _is_new_period,
    _floor_to_period, nextMinute, mkAggregator, mkMinuteBar, completedBars]

/-! ## C1: runs of consecutive minute bars from a calendar boundary -/

/-- Size-`W` chunks of a bar list; a trailing partial chunk is dropped. -/
def chunkW (W : Nat) (L : List Bar) : List (List Bar) :=
  if h : 0 < W ∧ W ≤ L.length then
    L.take W :: chunkW W (L.drop W)
  else []
termination_by L.length
decreasing_by
  simp only [List.length_drop]
  omega

/-- The aggregate the specification assigns to a chunk of member bars:
open from the first member, close and `date_l` from the last, volume the
sum of the members, high/low the max/min over exactly the members. -/
def aggChunk (s : String) : List Bar → Bar
  | [] => ⟨s, ⟨0, 0⟩, ⟨0, 0⟩, 0, 0, 0, 0, 0, true⟩
  | b :: rest =>
    { symbol := s
      date := b.date
      date_l := (rest.getLastD b).date_l
      open_ := b.open_
      high := rest.foldl (fun acc x => max acc x.high) b.high
      low := rest.foldl (fun acc x => min acc x.low) b.low
      close := (rest.getLastD b).close
      volume := rest.foldl (fun acc x => acc + x.volume) b.volume
      cpl := true }

/-- `L` is a run of consecutive one-minute bars for symbol `s`, the first
dated at absolute minute `t0` (minute-aligned, sub-minute part zero). -/
def ConsecutiveFrom (s : String) (t0 : Nat) (L : List Bar) : Prop :=
  ∀ i (h : i < L.length),
    (L.get ⟨i, h⟩).symbol = s ∧ (L.get ⟨i, h⟩).date = ⟨t0 + i, 0⟩

instance (s : String) (t0 : Nat) (L : List Bar) :
    Decidable (ConsecutiveFrom s t0 L) := by
  unfold ConsecutiveFrom
  infer_instance

lemma consecutive_take (s : String) (t0 k : Nat) (L : List Bar)
    (h : ConsecutiveFrom s t0 L) : ConsecutiveFrom s t0 (L.take k) := by
  intro i hi
  have hik : i < L.length := by
    have := List.length_take k L
    omega
  have := h i hik
  simpa [List.get_eq_getElem, List.getElem_take] using this

lemma consecutive_drop (s : String) (t0 k : Nat) (L : List Bar)
    (h : ConsecutiveFrom s t0 L) : ConsecutiveFrom s (t0 + k) (L.drop k) := by
  intro i hi
  have hik : k + i < L.length := by
    have := List.length_drop k L
    omega
  have := h (k + i) hik
  simpa [List.get_eq_getElem, List.getElem_drop, Nat.add_assoc] using this

/-- When the window length divides the hour, `_floor_to_period` is plain
flooring of the absolute minute to a multiple of `W`. -/
lemma floor_eq_sub_mod (t : Ts) (W : Nat) (hW : 0 < W) (hdvd : W ∣ 60) :
    _floor_to_period t W = ⟨t.m - t.m % W, 0⟩ := by
  unfold _floor_to_period
  have h1 : t.m % 60 % W = t.m % W := Nat.mod_mod_of_dvd t.m hdvd
  have h2 := Nat.div_add_mod (t.m % 60) W
  have h2' : t.m % 60 / W * W = W * (t.m % 60 / W) := Nat.mul_comm _ _
  have h3 : t.m % 60 ≤ t.m := Nat.mod_le _ _
  have h4 : t.m % W ≤ t.m % 60 := h1 ▸ Nat.mod_le _ _
  simp only [Ts.mk.injEq, and_true]
  omega

lemma floor_of_aligned (W k i sec : Nat) (hW : 0 < W) (hdvd : W ∣ 60)
    (hi : i < W) : _floor_to_period ⟨W * k + i, sec⟩ W = ⟨W * k, 0⟩ := by
  rw [floor_eq_sub_mod _ W hW hdvd]
  have h1 : (W * k + i) % W = i % W := Nat.mul_add_mod W k i
  have h2 : i % W = i := Nat.mod_eq_of_lt hi
  simp only [Ts.mk.injEq, and_true]
  omega

/-- A bar strictly inside the current bucket does not start a new period. -/
lemma is_new_period_same (W k i sec : Nat) (hW : 0 < W) (hdvd : W ∣ 60)
    (hi : i < W) :
    _is_new_period W ⟨W * k, 0⟩ ⟨W * k + i, sec⟩ = false := by
  unfold _is_new_period
  rw [floor_of_aligned W k i sec hW hdvd hi]
  have h0 : _floor_to_period ⟨W * k, 0⟩ W = ⟨W * k, 0⟩ := by
    have := floor_of_aligned W k 0 0 hW hdvd hW
    simpa using this
  rw [h0]
  simp

/-- The first minute of the next bucket does start a new period. -/
lemma is_new_period_next (W k sec : Nat) (hW : 0 < W) (hdvd : W ∣ 60) :
    _is_new_period W ⟨W * k, 0⟩ ⟨W * k + W, sec⟩ = true := by
  unfold _is_new_period
  have h1 : _floor_to_period ⟨W * k + W, sec⟩ W = ⟨W * (k + 1), 0⟩ := by
    have := floor_of_aligned W (k + 1) 0 sec hW hdvd hW
    have he : W * (k + 1) + 0 = W * k + W := by ring
    rwa [he] at this
  have h0 : _floor_to_period ⟨W * k, 0⟩ W = ⟨W * k, 0⟩ := by
    have := floor_of_aligned W k 0 0 hW hdvd hW
    simpa using this
  rw [h1, h0]
  simp only [decide_eq_true_eq, ne_eq, Ts.mk.injEq]
  intro hcontra
  have hx : W * (k + 1) = W * k + W := by ring
  omega

lemma runBars_append (st : AggState) (L1 L2 : List Bar) :
    runBars st (L1 ++ L2) =
      ((runBars st L1).1 ++ (runBars (runBars st L1).2 L2).1,
        (runBars (runBars st L1).2 L2).2) := by
  induction L1 generalizing st with
  | nil => simp [runBars]
  | cons b rest ih => simp [runBars, ih]

lemma completedBars_append (l1 l2 : List (Except String (Option Bar))) :
    completedBars (l1 ++ l2) = completedBars l1 ++ completedBars l2 :=
  List.filterMap_append l1 l2 _

lemma completedBars_oknone (l : List Bar) :
    completedBars (l.map fun _ => .ok none) = [] := by
  induction l with
  | nil => rfl
  | cons b rest ih => simpa [completedBars, List.filterMap_cons] using ih

/-- The aggregator state while a period is in progress: the accumulated
`current_bar` is exactly the chunk aggregate of the members so far. -/
def partialState (s : String) (W : Nat) (c : List Bar) : AggState :=
  match c with
  | [] => mkAggregator s W
  | b :: _ =>
    { symbol := s, period_minutes := W
      current_bar := some (aggChunk s c)
      period_start := some b.date
      bars_in_period := c }

lemma aggChunk_concat (s : String) (b0 : Bar) (rest : List Bar) (b : Bar) :
    aggChunk s (b0 :: rest ++ [b]) =
      { aggChunk s (b0 :: rest) with
        high := max (aggChunk s (b0 :: rest)).high b.high
        low := min (aggChunk s (b0 :: rest)).low b.low
        close := b.close
        volume := (aggChunk s (b0 :: rest)).volume + b.volume
        date_l := b.date_l } := by
  simp [aggChunk, List.foldl_append, List.getLastD_concat]

lemma runBars_building (s : String) (W k : Nat) (hW : 0 < W) (hdvd : W ∣ 60) :
    ∀ c : List Bar, c.length < W → ConsecutiveFrom s (W * k) c →
      runBars (mkAggregator s W) c = (c.map fun _ => .ok none, partialState s W c) := by
  intro c
  induction c using List.reverseRecOn with
  | nil => intro _ _; rfl
  | append_singleton c b ih =>
    intro hlen hcons
    have hclen : c.length < W := by
      simp only [List.length_append, List.length_singleton] at hlen
      omega
    have hb := hcons c.length (by simp)
    simp only [List.get_eq_getElem, List.getElem_concat_length] at hb
    obtain ⟨hbs, hbd⟩ := hb
    have hccons : ConsecutiveFrom s (W * k) c := by
      have h2 := consecutive_take s (W * k) c.length (c ++ [b]) hcons
      simpa [List.take_left] using h2
    rw [runBars_append, ih hclen hccons]
    rcases c with _ | ⟨b0, rest⟩
    · simp only [List.length_nil, Nat.add_zero] at hbd
      simp [runBars, add_bar, hbs, hbd, mkAggregator, _start_new_period,
        partialState, aggChunk]
    · have hb0 := hccons 0 (by simp)
      simp only [List.get_eq_getElem, List.getElem_cons_zero, Nat.add_zero] at hb0
      obtain ⟨hb0s, hb0d⟩ := hb0
      simp only [List.length_cons] at hbd hclen
      have hnew : _is_new_period W b0.date b.date = false := by
        rw [hb0d, hbd]
        exact is_new_period_same W k (rest.length + 1) 0 hW hdvd hclen
      have hcomplete : _is_period_complete W b0.date b.date = false := by
        rw [hb0d, hbd]
        unfold _is_period_complete nextMinute
        have harr : W * k + (rest.length + 1) + 1 = W * k + (rest.length + 2) := by omega
        rw [harr]
        have hlt : rest.length + 2 < W := by
          simp only [List.cons_append, List.length_cons, List.length_append,
            List.length_singleton] at hlen
          omega
        exact is_new_period_same W k (rest.length + 2) 0 hW hdvd hlt
      simp only [List.cons_append, runBars, add_bar, partialState, hbs,
        _add_to_current_period, hnew, hcomplete]
      simp [hcomplete]
      exact (aggChunk_concat s b0 rest b).symm

/-- Feeding exactly one full calendar-aligned block of `W` consecutive
minute bars from a fresh aggregator yields the chunk aggregate on the last
call and resets the aggregator. -/
lemma runBars_block (s : String) (W k : Nat) (hW : 2 ≤ W) (hdvd : W ∣ 60)
    (c : List Bar) (hlen : c.length = W) (hcons : ConsecutiveFrom s (W * k) c) :
    runBars (mkAggregator s W) c =
      ((c.dropLast.map fun _ => .ok none) ++ [.ok (some (aggChunk s c))],
        mkAggregator s W) := by
  have hne : c ≠ [] := by
    intro h
    rw [h] at hlen
    simp at hlen
    omega
  obtain ⟨c', b, rfl⟩ : ∃ c' b, c = c' ++ [b] :=
    ⟨c.dropLast, c.getLast hne, (List.dropLast_append_getLast hne).symm⟩
  have hclen : c'.length + 1 = W := by
    simp only [List.length_append, List.length_singleton] at hlen
    omega
  have hb := hcons c'.length (by simp)
  simp only [List.get_eq_getElem, List.getElem_concat_length] at hb
  obtain ⟨hbs, hbd⟩ := hb
  have hccons : ConsecutiveFrom s (W * k) c' := by
    have h2 := consecutive_take s (W * k) c'.length (c' ++ [b]) hcons
    simpa [List.take_left] using h2
  rw [runBars_append, runBars_building s W k (by omega) hdvd c' (by omega) hccons,
    List.dropLast_concat]
  rcases c' with _ | ⟨b0, rest⟩
  · simp only [List.length_nil] at hclen
    omega
  · have hb0 := hccons 0 (by simp)
    simp only [List.get_eq_getElem, List.getElem_cons_zero, Nat.add_zero] at hb0
    obtain ⟨hb0s, hb0d⟩ := hb0
    simp only [List.length_cons] at hbd hclen
    have hnew : _is_new_period W b0.date b.date = false := by
      rw [hb0d, hbd]
      exact is_new_period_same W k (rest.length + 1) 0 (by omega) hdvd (by omega)
    have hcomplete : _is_period_complete W b0.date b.date = true := by
      rw [hb0d, hbd]
      unfold _is_period_complete nextMinute
      have harr : W * k + (rest.length + 1) + 1 = W * k + W := by omega
      rw [harr]
      exact is_new_period_next W k 0 (by omega) hdvd
    have hstep : add_bar (partialState s W (b0 :: rest)) b =
        (.ok (some (aggChunk s ((b0 :: rest) ++ [b]))), mkAggregator s W) := by
      rw [aggChunk_concat s b0 rest b]
      simp only [add_bar, partialState, hbs, _add_to_current_period, hnew, hcomplete]
      simp [_complete_period, mkAggregator, hcomplete]
    simp [runBars, hstep]

lemma completedBars_replicate (n : Nat) :
    completedBars (List.replicate n (.ok none)) = [] := by
  induction n with
  | zero => rfl
  | succ m ih => simpa [completedBars, List.replicate, List.filterMap_cons] using ih

lemma chunkW_of_lt (W : Nat) (L : List Bar) (h : ¬(0 < W ∧ W ≤ L.length)) :
    chunkW W L = [] := by
  unfold chunkW
  simp [h]

lemma chunkW_of_le (W : Nat) (L : List Bar) (h : 0 < W ∧ W ≤ L.length) :
    chunkW W L = L.take W :: chunkW W (L.drop W) := by
  conv_lhs => unfold chunkW
  simp [h]

lemma runBars_chunks (s : String) (W : Nat) (hW : 2 ≤ W) (hdvd : W ∣ 60) :
    ∀ n (L : List Bar) (k : Nat), L.length = n → ConsecutiveFrom s (W * k) L →
      completedBars (runBars (mkAggregator s W) L).1 = (chunkW W L).map (aggChunk s) := by
  intro n
  induction n using Nat.strong_induction_on with
  | _ n ih =>
    intro L k hn hcons
    by_cases hWL : W ≤ L.length
    · have htake : (L.take W).length = W := by
        rw [List.length_take]
        omega
      have hbk := runBars_block s W k hW hdvd (L.take W) htake
        (consecutive_take s (W * k) W L hcons)
      have hdropcons : ConsecutiveFrom s (W * (k + 1)) (L.drop W) := by
        have h2 := consecutive_drop s (W * k) W L hcons
        have he : W * k + W = W * (k + 1) := by ring
        rwa [he] at h2
      have hih := ih (L.length - W) (by omega) (L.drop W) (k + 1)
        (by simp) hdropcons
      conv_lhs => rw [← List.take_append_drop W L]
      rw [runBars_append, hbk]
      simp only [completedBars_append, completedBars_oknone, hih]
      have hsingle : completedBars [Except.ok (some (aggChunk s (L.take W)))] =
          [aggChunk s (L.take W)] := by
        simp [completedBars, List.filterMap]
      rw [hsingle, chunkW_of_le W L ⟨by omega, hWL⟩]
      simp
    · rw [runBars_building s W k (by omega) hdvd L (by omega) hcons]
      rw [chunkW_of_lt W L (by omega)]
      simp [completedBars_oknone, completedBars_replicate]

lemma chunkW_length (W : Nat) (hW : 0 < W) :
    ∀ n (L : List Bar), L.length = n → (chunkW W L).length = L.length / W := by
  intro n
  induction n using Nat.strong_induction_on with
  | _ n ih =>
    intro L hn
    by_cases hWL : W ≤ L.length
    · rw [chunkW_of_le W L ⟨hW, hWL⟩]
      simp only [List.length_cons]
      rw [ih (L.length - W) (by omega) (L.drop W) (by simp), List.length_drop,
        Nat.div_eq_sub_div hW hWL]
    · rw [chunkW_of_lt W L (by omega)]
      simp [Nat.div_eq_of_lt (by omega : L.length < W)]

lemma chunkW_mem_length (W : Nat) (hW : 0 < W) :
    ∀ n (L : List Bar), L.length = n → ∀ c ∈ chunkW W L, c.length = W := by
  intro n
  induction n using Nat.strong_induction_on with
  | _ n ih =>
    intro L hn c hc
    by_cases hWL : W ≤ L.length
    · rw [chunkW_of_le W L ⟨hW, hWL⟩] at hc
      rcases List.mem_cons.mp hc with hc2 | hc2
      · rw [hc2, List.length_take]
        omega
      · exact ih (L.length - W) (by omega) (L.drop W) (by simp) c hc2
    · rw [chunkW_of_lt W L (by omega)] at hc
      simp at hc

lemma foldl_maxf_mem (f : Bar → ℚ) (l : List Bar) :
    ∀ a : ℚ, l.foldl (fun acc x => max acc (f x)) a = a ∨
      l.foldl (fun acc x => max acc (f x)) a ∈ l.map f := by
  induction l with
  | nil => intro a; left; rfl
  | cons x xs ih =>
    intro a
    rcases ih (max a (f x)) with h | h
    · rcases le_total a (f x) with hle | hle
      · right
        simp only [List.foldl_cons, List.map_cons, List.mem_cons]
        left
        rw [h, max_eq_right hle]
      · left
        simp only [List.foldl_cons]
        rw [h, max_eq_left hle]
    · right
      simp only [List.foldl_cons, List.map_cons, List.mem_cons]
      right
      exact h

lemma foldl_maxf_bound (f : Bar → ℚ) (l : List Bar) :
    ∀ a : ℚ, a ≤ l.foldl (fun acc x => max acc (f x)) a ∧
      ∀ q ∈ l.map f, q ≤ l.foldl (fun acc x => max acc (f x)) a := by
  induction l with
  | nil => intro a; exact ⟨le_refl a, by simp⟩
  | cons x xs ih =>
    intro a
    obtain ⟨h1, h2⟩ := ih (max a (f x))
    refine ⟨le_trans (le_max_left a (f x)) h1, ?_⟩
    intro q hq
    simp only [List.map_cons, List.mem_cons] at hq
    rcases hq with rfl | hq
    · exact le_trans (le_max_right a (f x)) h1
    · exact h2 q hq

lemma foldl_minf_mem (f : Bar → ℚ) (l : List Bar) :
    ∀ a : ℚ, l.foldl (fun acc x => min acc (f x)) a = a ∨
      l.foldl (fun acc x => min acc (f x)) a ∈ l.map f := by
  induction l with
  | nil => intro a; left; rfl
  | cons x xs ih =>
    intro a
    rcases ih (min a (f x)) with h | h
    · rcases le_total (f x) a with hle | hle
      · right
        simp only [List.foldl_cons, List.map_cons, List.mem_cons]
        left
        rw [h, min_eq_right hle]
      · left
        simp only [List.foldl_cons]
        rw [h, min_eq_left hle]
    · right
      simp only [List.foldl_cons, List.map_cons, List.mem_cons]
      right
      exact h

lemma foldl_minf_bound (f : Bar → ℚ) (l : List Bar) :
    ∀ a : ℚ, l.foldl (fun acc x => min acc (f x)) a ≤ a ∧
      ∀ q ∈ l.map f, l.foldl (fun acc x => min acc (f x)) a ≤ q := by
  induction l with
  | nil => intro a; exact ⟨le_refl a, by simp⟩
  | cons x xs ih =>
    intro a
    obtain ⟨h1, h2⟩ := ih (min a (f x))
    refine ⟨le_trans h1 (min_le_left a (f x)), ?_⟩
    intro q hq
    simp only [List.map_cons, List.mem_cons] at hq
    rcases hq with rfl | hq
    · exact le_trans h1 (min_le_right a (f x))
    · exact h2 q hq

lemma foldl_add_volume (l : List Bar) :
    ∀ init : ℚ, l.foldl (fun acc x => acc + x.volume) init =
      init + (l.map Bar.volume).sum := by
  induction l with
  | nil => intro init; simp
  | cons x xs ih =>
    intro init
    simp only [List.foldl_cons, List.map_cons, List.sum_cons, ih]
    ring

/-- The chunk aggregate has the OHLCV shape the specification describes:
open from the first member, close from the last, volume the member sum,
high the maximum and low the minimum over exactly the members. -/
lemma aggChunk_fields (s : String) (c : List Bar) (hc : c ≠ []) :
    (aggChunk s c).open_ = (c.head hc).open_ ∧
    (aggChunk s c).close = (c.getLast hc).close ∧
    (aggChunk s c).volume = (c.map Bar.volume).sum ∧
    ((aggChunk s c).high ∈ c.map Bar.high ∧
      ∀ q ∈ c.map Bar.high, q ≤ (aggChunk s c).high) ∧
    ((aggChunk s c).low ∈ c.map Bar.low ∧
      ∀ q ∈ c.map Bar.low, (aggChunk s c).low ≤ q) := by
  rcases c with _ | ⟨b, rest⟩
  · exact absurd rfl hc
  refine ⟨rfl, ?_, ?_, ⟨?_, ?_⟩, ⟨?_, ?_⟩⟩
  · show (rest.getLastD b).close = _
    rw [List.getLast_eq_getLastD]
  · show rest.foldl (fun acc x => acc + x.volume) b.volume = _
    rw [foldl_add_volume rest b.volume]
    simp
  · show rest.foldl (fun acc x => max acc x.high) b.high ∈ _
    rcases foldl_maxf_mem Bar.high rest b.high with h | h
    · rw [h]; simp
    · simp only [List.map_cons, List.mem_cons]
      right
      exact h
  · intro q hq
    simp only [List.map_cons, List.mem_cons] at hq
    obtain ⟨h1, h2⟩ := foldl_maxf_bound Bar.high rest b.high
    rcases hq with rfl | hq
    · exact h1
    · exact h2 q hq
  · show rest.foldl (fun acc x => min acc x.low) b.low ∈ _
    rcases foldl_minf_mem Bar.low rest b.low with h | h
    · rw [h]; simp
    · simp only [List.map_cons, List.mem_cons]
      right
      exact h
  · intro q hq
    simp only [List.map_cons, List.mem_cons] at hq
    obtain ⟨h1, h2⟩ := foldl_minf_bound Bar.low rest b.low
    rcases hq with rfl | hq
    · exact h1
    · exact h2 q hq

/-- **C1 (amended).** For every window size `W` of at least two minutes
that divides the hour evenly (`W ∣ 60`) and every run of consecutive
one-minute same-symbol bars whose first bar lies exactly on a `W`-minute
calendar boundary, the sequence of `add_bar` calls returns exactly
`⌊N/W⌋` completed bars — the aggregates of the successive `W`-bar chunks —
and each completed bar has open from its first member, close from its
`W`-th member (never the following trigger bar), volume the sum over its
`W` members, and high/low the max/min over exactly those `W` members. -/
theorem aggregator_run_spec (W : Nat) (s : String) (t0 : Nat) (L : List Bar)
    (hW : 2 ≤ W) (hdvd : W ∣ 60) (ht0 : W ∣ t0) (hcons : ConsecutiveFrom s t0 L) :
    completedBars (runBars (mkAggregator s W) L).1 = (chunkW W L).map (aggChunk s) ∧
    (completedBars (runBars (mkAggregator s W) L).1).length = L.length / W ∧
    (∀ c ∈ chunkW W L, c.length = W) ∧
    (∀ c ∈ chunkW W L, ∀ hc : c ≠ [],
      (aggChunk s c).open_ = (c.head hc).open_ ∧
      (aggChunk s c).close = (c.getLast hc).close ∧
      (aggChunk s c).volume = (c.map Bar.volume).sum ∧
      ((aggChunk s c).high ∈ c.map Bar.high ∧
        ∀ q ∈ c.map Bar.high, q ≤ (aggChunk s c).high) ∧
      ((aggChunk s c).low ∈ c.map Bar.low ∧
        ∀ q ∈ c.map Bar.low, (aggChunk s c).low ≤ q)) := by
  obtain ⟨k, rfl⟩ := ht0
  have hmain := runBars_chunks s W hW hdvd L.length L k rfl hcons
  refine ⟨hmain, ?_, ?_, ?_⟩
  · rw [hmain, List.length_map, chunkW_length W (by omega) L.length L rfl]
  · exact chunkW_mem_length W (by omega) L.length L rfl
  · intro c _ hcne
    exact aggChunk_fields s c hcne

/-- Seven consecutive minute bars from 09:30 with distinct volumes. -/
def c1bars : List Bar :=
  (List.range 7).map fun i => mkMinuteBar "ES.c.0" (570 + i) (10 + i)

theorem aggregator_run_spec_witness :
    ((2 : Nat) ≤ 5 ∧ (5 : Nat) ∣ 60 ∧ (5 : Nat) ∣ 570 ∧
        ConsecutiveFrom "ES.c.0" 570 c1bars) ∧
      completedBars (runBars (mkAggregator "ES.c.0" 5) c1bars).1 =
        (chunkW 5 c1bars).map (aggChunk "ES.c.0") :=
  ⟨⟨by decide, by decide, by decide, by decide⟩,
    (aggregator_run_spec 5 "ES.c.0" 570 c1bars (by decide) (by decide)
      (by decide) (by decide)).1⟩

/-- Four consecutive minute bars from minute 56 of the hour. -/
def c1cbars : List Bar :=
  (List.range 4).map fun i => mkMinuteBar "ES.c.0" (56 + i) 100

/-- **C1 counterexample.** For window size `W = 7` (which does not divide
60), minute 56 lies exactly on a 7-minute calendar boundary
(`⌊56⌋₇ = 56`), yet a run of 4 consecutive bars from there produces one
completed bar — the truncated 56..59 bucket closes at the top of the hour —
although the claim predicts `⌊4/7⌋ = 0` completed bars. -/
theorem aggregator_run_spec_counterexample :
    _floor_to_period ⟨56, 0⟩ 7 = ⟨56, 0⟩ ∧
    ConsecutiveFrom "ES.c.0" 56 c1cbars ∧
    (completedBars (runBars (mkAggregator "ES.c.0" 7) c1cbars).1).length = 1 ∧
    c1cbars.length / 7 = 0 := by decide

/-! ## Rate limiter (`execution/rate_limiter.py`)

Wall-clock times and the token count are embedded as exact rationals;
`max_requests` and `burst_size` are the Python ints. -/

structure RateLimiter where
  max_requests : Nat
  period_seconds : ℚ
  burst_size : Nat
  tokens : ℚ
  last_update : ℚ
deriving DecidableEq, Repr

/-- `RateLimiter.__init__` at wall-clock time `now`: Python's
`burst_size or max_requests` treats `None` and `0` as falsy, and the
bucket starts full. -/
def mkRateLimiter (max_requests : Nat) (period_seconds : ℚ)
    (burst_size : Option Nat) (now : ℚ) : RateLimiter :=
  let bs := match burst_size with
    | none => max_requests
    | some b => if b = 0 then max_requests else b
  { max_requests := max_requests, period_seconds := period_seconds
    burst_size := bs, tokens := (bs : ℚ), last_update := now }

/-- `self.refill_rate = self.max_requests / self.period_seconds`. -/
def RateLimiter.refill_rate (rl : RateLimiter) : ℚ :=
  (rl.max_requests : ℚ) / rl.period_seconds

/-- `RateLimiter._refill` at wall-clock time `now`. -/
def RateLimiter._refill (rl : RateLimiter) (now : ℚ) : RateLimiter :=
  let elapsed := now - rl.last_update
  let new_tokens := elapsed * rl.refill_rate
  { rl with
    tokens := min (rl.burst_size : ℚ) (rl.tokens + new_tokens)
    last_update := now }

/-- `RateLimiter.acquire` at time `now`: refill, then deduct if enough
tokens are available; refill and deduction form one critical section. -/
def RateLimiter.acquire (rl : RateLimiter) (tokens : Nat) (now : ℚ) :
    Bool × RateLimiter :=
  let rl1 := rl._refill now
  if (tokens : ℚ) ≤ rl1.tokens then
    (true, { rl1 with tokens := rl1.tokens - (tokens : ℚ) })
  else
    (false, rl1)

/-- `RateLimiter.get_tokens` (refills, then reads the count). -/
def RateLimiter.get_tokens (rl : RateLimiter) (now : ℚ) : ℚ × RateLimiter :=
  let rl1 := rl._refill now
  (rl1.tokens, rl1)

/-- `RateLimiter.wait_for_token` with a finite `timeout`: poll `acquire`,
give up once `timeout ≤ now - start_time`, sleep 0.1 s between polls.
`fuel` bounds the number of polls purely for termination of the model;
`none` means the fuel ran out before the loop returned. -/
def RateLimiter.wait_for_token_aux :
    Nat → RateLimiter → Nat → ℚ → ℚ → ℚ → Option (Bool × RateLimiter)
  | 0, _, _, _, _, _ => none
  | fuel + 1, rl, n, start_time, timeout, now =>
    let r := rl.acquire n now
    if r.1 then some (true, r.2)
    else if timeout ≤ now - start_time then some (false, r.2)
    else RateLimiter.wait_for_token_aux fuel r.2 n start_time timeout (now + 1/10)

/-- `RateLimiter.wait_for_token` records `start_time = now` on entry. -/
def RateLimiter.wait_for_token (rl : RateLimiter) (n : Nat) (timeout : ℚ)
    (start : ℚ) (fuel : Nat) : Option (Bool × RateLimiter) :=
  RateLimiter.wait_for_token_aux fuel rl n start timeout start

/-- One client-visible operation on the shared limiter.  A
`wait_for_token` call is a sequence of `acquire` polls at increasing
times, so runs of these operations cover it as well. -/
inductive RLOp
  | acquire (n : Nat)
  | get_tokens
deriving DecidableEq, Repr

def RLStep (rl : RateLimiter) (t : ℚ) : RLOp → RateLimiter
  | .acquire n => (rl.acquire n t).2
  | .get_tokens => (rl.get_tokens t).2

def runRL (rl : RateLimiter) : List (ℚ × RLOp) → RateLimiter
  | [] => rl
  | (t, op) :: rest => runRL (RLStep rl t op) rest

/-- The operation times never decrease, starting from `t`. -/
def TimesMono (t : ℚ) : List (ℚ × RLOp) → Prop
  | [] => True
  | (u, _) :: rest => t ≤ u ∧ TimesMono u rest

instance instDecTimesMono : (t : ℚ) → (l : List (ℚ × RLOp)) →
    Decidable (TimesMono t l)
  | _, [] => .isTrue trivial
  | t, (u, _) :: rest =>
    @instDecidableAnd _ _ (inferInstance) (instDecTimesMono u rest)

lemma refill_bounds (rl : RateLimiter) (now : ℚ)
    (hper : 0 < rl.period_seconds) (h0 : 0 ≤ rl.tokens)
    (hnow : rl.last_update ≤ now) :
    0 ≤ (rl._refill now).tokens ∧
    (rl._refill now).tokens ≤ (rl.burst_size : ℚ) ∧
    (rl._refill now).last_update = now := by
  refine ⟨?_, min_le_left _ _, rfl⟩
  apply le_min (by positivity)
  have he : (0 : ℚ) ≤ now - rl.last_update := by linarith
  have hr : (0 : ℚ) ≤ rl.refill_rate := by
    unfold RateLimiter.refill_rate
    positivity
  nlinarith [mul_nonneg he hr]

lemma RLStep_bounds (rl : RateLimiter) (t : ℚ) (op : RLOp)
    (hper : 0 < rl.period_seconds) (h0 : 0 ≤ rl.tokens)
    (ht : rl.last_update ≤ t) :
    0 ≤ (RLStep rl t op).tokens ∧
    (RLStep rl t op).tokens ≤ (rl.burst_size : ℚ) ∧
    (RLStep rl t op).last_update = t ∧
    (RLStep rl t op).burst_size = rl.burst_size ∧
    (RLStep rl t op).period_seconds = rl.period_seconds := by
  obtain ⟨hr0, hrb, hrl⟩ := refill_bounds rl t hper h0 ht
  cases op with
  | acquire n =>
    simp only [RLStep, RateLimiter.acquire]
    by_cases hc : (n : ℚ) ≤ (rl._refill t).tokens
    · simp only [hc, if_true]
      have hn : (0 : ℚ) ≤ (n : ℚ) := by positivity
      refine ⟨?_, ?_, rfl, rfl, rfl⟩
      · show (0 : ℚ) ≤ (rl._refill t).tokens - (n : ℚ)
        linarith
      · show (rl._refill t).tokens - (n : ℚ) ≤ (rl.burst_size : ℚ)
        linarith
    · simp only [hc, if_false]
      exact ⟨hr0, hrb, hrl, rfl, rfl⟩
  | get_tokens =>
    simp only [RLStep, RateLimiter.get_tokens]
    exact ⟨hr0, hrb, hrl, rfl, rfl⟩

lemma runRL_bounds : ∀ (ops : List (ℚ × RLOp)) (rl : RateLimiter),
    0 < rl.period_seconds → 0 ≤ rl.tokens → rl.tokens ≤ (rl.burst_size : ℚ) →
    TimesMono rl.last_update ops →
    0 ≤ (runRL rl ops).tokens ∧ (runRL rl ops).tokens ≤ (rl.burst_size : ℚ) := by
  intro ops
  induction ops with
  | nil => intro rl _ h0 hb _; exact ⟨h0, hb⟩
  | cons hd rest ih =>
    obtain ⟨t, op⟩ := hd
    intro rl hper h0 hb hmono
    obtain ⟨ht, hrest⟩ := hmono
    obtain ⟨s0, sb, sl, sburst, sper⟩ := RLStep_bounds rl t op hper h0 ht
    have hres := ih (RLStep rl t op) (by rw [sper]; exact hper) s0
      (by rw [sburst]; exact sb) (by rw [sl]; exact hrest)
    rw [sburst] at hres
    exact hres

lemma TimesMono_front : ∀ (l1 l2 : List (ℚ × RLOp)) (t : ℚ),
    TimesMono t (l1 ++ l2) → TimesMono t l1 := by
  intro l1
  induction l1 with
  | nil => intro _ _ _; trivial
  | cons hd rest ih =>
    obtain ⟨u, op⟩ := hd
    intro l2 t h
    exact ⟨h.1, ih l2 u h.2⟩

/-- **C5.** For every freshly constructed rate limiter and every sequence
of `acquire` / `get_tokens` operations at non-decreasing times (a
`wait_for_token` call performs exactly such a sequence of `acquire`
polls), the token count lies within `[0, burst_size]` after every
operation — it never exceeds `burst_size` and never goes negative — and
the refilled count is the pure function
`min(burst_size, tokens + elapsed · max_requests / period_seconds)` of the
elapsed time since the last refill. -/
theorem rate_limiter_token_bounds (max_requests : Nat) (period_seconds : ℚ)
    (burst : Option Nat) (t_init : ℚ) (pre post : List (ℚ × RLOp))
    (hper : 0 < period_seconds)
    (hmono : TimesMono t_init (pre ++ post)) :
    (0 ≤ (runRL (mkRateLimiter max_requests period_seconds burst t_init) pre).tokens ∧
      (runRL (mkRateLimiter max_requests period_seconds burst t_init) pre).tokens ≤
        ((mkRateLimiter max_requests period_seconds burst t_init).burst_size : ℚ)) ∧
    (∀ (rl : RateLimiter) (now : ℚ),
      (rl._refill now).tokens =
        min (rl.burst_size : ℚ)
          (rl.tokens + (now - rl.last_update) *
            ((rl.max_requests : ℚ) / rl.period_seconds))) := by
  constructor
  · exact runRL_bounds pre (mkRateLimiter max_requests period_seconds burst t_init)
      hper (Nat.cast_nonneg _) (le_refl _)
      (TimesMono_front pre post t_init hmono)
  · intro rl now
    rfl

def c5ops_pre : List (ℚ × RLOp) := [(0, .acquire 1), (1, .get_tokens)]

def c5ops_post : List (ℚ × RLOp) := [(2, .acquire 60)]

theorem rate_limiter_token_bounds_witness :
    ((0 : ℚ) < 60 ∧ TimesMono 0 (c5ops_pre ++ c5ops_post)) ∧
      ((0 ≤ (runRL (mkRateLimiter 60 60 none 0) c5ops_pre).tokens ∧
        (runRL (mkRateLimiter 60 60 none 0) c5ops_pre).tokens ≤
          ((mkRateLimiter 60 60 none 0).burst_size : ℚ)) ∧
      (∀ (rl : RateLimiter) (now : ℚ),
        (rl._refill now).tokens =
          min (rl.burst_size : ℚ)
            (rl.tokens + (now - rl.last_update) *
              ((rl.max_requests : ℚ) / rl.period_seconds)))) :=
  ⟨⟨by decide, by decide⟩,
    rate_limiter_token_bounds 60 60 none 0 c5ops_pre c5ops_post
      (by decide) (by decide)⟩

/-! ## C9: requests larger than the burst capacity -/

lemma acquire_burst_lt (rl : RateLimiter) (n : Nat) (now : ℚ)
    (h : rl.burst_size < n) :
    (rl.acquire n now).1 = false ∧
    (rl.acquire n now).2.burst_size = rl.burst_size := by
  unfold RateLimiter.acquire
  have hle : (rl._refill now).tokens ≤ (rl.burst_size : ℚ) := min_le_left _ _
  have hcast : (rl.burst_size : ℚ) < (n : ℚ) := by exact_mod_cast h
  have hc : ¬ ((n : ℚ) ≤ (rl._refill now).tokens) :=
    not_le.mpr (lt_of_le_of_lt hle hcast)
  simp [hc]
  rfl

lemma wait_aux_never_true :
    ∀ (fuel : Nat) (rl : RateLimiter) (n : Nat) (start timeout now : ℚ),
      rl.burst_size < n → ∀ b st,
        RateLimiter.wait_for_token_aux fuel rl n start timeout now =
          some (b, st) → b = false := by
  intro fuel
  induction fuel with
  | zero =>
    intro rl n start timeout now _ b st hcontra
    simp [RateLimiter.wait_for_token_aux] at hcontra
  | succ fuel ih =>
    intro rl n start timeout now h b st heq
    obtain ⟨hf, hb⟩ := acquire_burst_lt rl n now h
    simp only [RateLimiter.wait_for_token_aux, hf, Bool.false_eq_true,
      if_false] at heq
    by_cases hto : timeout ≤ now - start
    · simp only [hto, if_true, Option.some.injEq, Prod.mk.injEq] at heq
      exact heq.1.symm
    · simp only [hto, if_false] at heq
      exact ih _ n start timeout _ (hb ▸ h) b st heq

lemma wait_aux_terminates :
    ∀ (fuel : Nat) (rl : RateLimiter) (n : Nat) (start timeout now : ℚ),
      rl.burst_size < n → timeout ≤ now - start + (fuel : ℚ) / 10 →
      ∃ st, RateLimiter.wait_for_token_aux (fuel + 1) rl n start timeout now =
        some (false, st) := by
  intro fuel
  induction fuel with
  | zero =>
    intro rl n start timeout now h hto
    obtain ⟨hf, _⟩ := acquire_burst_lt rl n now h
    have hto' : timeout ≤ now - start := by
      push_cast at hto
      linarith
    exact ⟨(rl.acquire n now).2,
      by simp [RateLimiter.wait_for_token_aux, hf, hto']⟩
  | succ fuel ih =>
    intro rl n start timeout now h hto
    obtain ⟨hf, hb⟩ := acquire_burst_lt rl n now h
    have hunfold : RateLimiter.wait_for_token_aux (fuel + 1 + 1) rl n start timeout now =
        if (rl.acquire n now).1 = true then some (true, (rl.acquire n now).2)
        else if timeout ≤ now - start then some (false, (rl.acquire n now).2)
        else RateLimiter.wait_for_token_aux (fuel + 1) (rl.acquire n now).2 n
          start timeout (now + 1 / 10) := rfl
    by_cases hcase : timeout ≤ now - start
    · refine ⟨(rl.acquire n now).2, ?_⟩
      rw [hunfold, hf]
      simp [hcase]
    · obtain ⟨st, hst⟩ := ih (rl.acquire n now).2 n start timeout (now + 1 / 10)
        (hb ▸ h) (by push_cast at hto ⊢; linarith)
      refine ⟨st, ?_⟩
      rw [hunfold, hf]
      simp only [Bool.false_eq_true, if_false, hcase]
      exact hst

/-- **C9.** For every rate limiter and every requested token count `n`
strictly greater than `burst_size`, `acquire n` returns `False` no matter
how much time has elapsed since the last refill (the refilled count is
capped at `burst_size`), and consequently `wait_for_token n` with any
finite non-negative timeout never returns `True` and does return `False`
once the timeout elapses. -/
theorem rate_limiter_over_burst (rl : RateLimiter) (n : Nat)
    (now start timeout : ℚ) (h : rl.burst_size < n) (hto : 0 ≤ timeout) :
    (rl.acquire n now).1 = false ∧
    (∀ fuel b st, rl.wait_for_token n timeout start fuel = some (b, st) →
      b = false) ∧
    (∃ fuel st, rl.wait_for_token n timeout start fuel = some (false, st)) := by
  refine ⟨(acquire_burst_lt rl n now h).1, ?_, ?_⟩
  · intro fuel b st heq
    exact wait_aux_never_true fuel rl n start timeout start h b st heq
  · refine ⟨Nat.ceil (timeout * 10) + 1, ?_⟩
    apply wait_aux_terminates (Nat.ceil (timeout * 10)) rl n start timeout start h
    have h1 : timeout * 10 ≤ (Nat.ceil (timeout * 10) : ℚ) := Nat.le_ceil _
    linarith

theorem rate_limiter_over_burst_witness :
    ((mkRateLimiter 60 60 none 0).burst_size < 61 ∧ (0 : ℚ) ≤ 2) ∧
      (((mkRateLimiter 60 60 none 0).acquire 61 5).1 = false ∧
      (∀ fuel b st,
        (mkRateLimiter 60 60 none 0).wait_for_token 61 2 0 fuel =
          some (b, st) → b = false) ∧
      (∃ fuel st,
        (mkRateLimiter 60 60 none 0).wait_for_token 61 2 0 fuel =
          some (false, st))) :=
  ⟨⟨by decide, by decide⟩,
    rate_limiter_over_burst (mkRateLimiter 60 60 none 0) 61 5 0 2
      (by decide) (by decide)⟩

/-! ## Order and position data model (`execution/models.py`) -/

inductive OrderAction
  | BUY
  | SELL
  | BUY_TO_COVER
  | SELL_SHORT
deriving DecidableEq, Repr

inductive OrderType
  | MARKET
  | LIMIT
  | STOP_MARKET
  | STOP_LIMIT
deriving DecidableEq, Repr

inductive TimeInForce
  | DAY
  | GTC
  | IOC
  | FOK
deriving DecidableEq, Repr

structure Position where
  instrument : String
  quantity : Int
  averagePrice : ℚ
deriving DecidableEq, Repr

structure OrderRequest where
  instrument : String
  action : OrderAction
  quantity : Int
  orderType : OrderType
  timeInForce : TimeInForce
  limitPrice : Option ℚ
  stopPrice : Option ℚ
deriving DecidableEq, Repr

/-! ## C6: `OrderManager.flatten_position` (`execution/order_manager.py`) -/

/-- Helper for Python `str.split()`: walk the characters, collecting the
current token in `acc` (reversed). -/
def pyTokensAux : List Char → List Char → List String
  | [], acc => if acc.isEmpty then [] else [String.mk acc.reverse]
  | c :: cs, acc =>
    if c.isWhitespace then
      if acc.isEmpty then pyTokensAux cs []
      else String.mk acc.reverse :: pyTokensAux cs []
    else pyTokensAux cs (c :: acc)

/-- Python `str.split()` with no argument: split on whitespace runs,
dropping empty pieces. -/
def pySplitTokens (s : String) : List String := pyTokensAux s.toList []

/-- Python `str.upper()` (character-wise, as used on ASCII symbols). -/
def pyUpper (s : String) : String := String.mk (s.toList.map Char.toUpper)

/-- `normalize_instrument` from `flatten_position`:
`inst.split()[0].upper()`.  `none` models the `IndexError` Python raises
on a whitespace-only instrument string. -/
def normalize_instrument (inst : String) : Option String :=
  (pySplitTokens inst).head?.map pyUpper

/-- The position-scan loop of `flatten_position`: first position whose
normalized instrument matches `base` and whose quantity is nonzero. -/
def findTargetPosition (base : String) : List Position → Except String (Option Position)
  | [] => .ok none
  | p :: rest =>
    match normalize_instrument p.instrument with
    | none => .error "IndexError"
    | some b =>
      if b = base ∧ p.quantity ≠ 0 then .ok (some p)
      else findTargetPosition base rest

/-- The single market order `flatten_position` submits for position `p`:
opposite side, absolute quantity, the venue-side instrument name. -/
def flattenReq (p : Position) : OrderRequest :=
  { instrument := p.instrument
    action := if p.quantity > 0 then .SELL else .BUY
    quantity := (p.quantity.natAbs : Int)
    orderType := .MARKET
    timeInForce := .DAY
    limitPrice := none
    stopPrice := none }

/-- `OrderManager.flatten_position` over a fetched position list: the
returned value (`ValueError` on no open position) and the list of orders
submitted through `submit_market_order`. -/
def flatten_position (positions : List Position) (instrument : String) :
    Except String OrderRequest × List OrderRequest :=
  match normalize_instrument instrument with
  | none => (.error "IndexError", [])
  | some base =>
    match findTargetPosition base positions with
    | .error e => (.error e, [])
    | .ok none => (.error "No open position found", [])
    | .ok (some p) => (.ok (flattenReq p), [flattenReq p])

/-- **C6.** For every fetched position list and every well-formed
instrument name: if the scan finds a position with nonzero quantity
matching the base-symbol-normalized instrument, `flatten_position`
submits exactly one market order — `SELL q` against a long position
`+q`, `BUY q` against a short position `−q` — and if no nonzero-quantity
position matches, it raises a not-found `ValueError` without submitting
any order. -/
theorem flatten_position_spec (positions : List Position)
    (instrument base : String)
    (hbase : normalize_instrument instrument = some base) :
    (∀ p, findTargetPosition base positions = .ok (some p) →
      flatten_position positions instrument = (.ok (flattenReq p), [flattenReq p]) ∧
      (0 < p.quantity →
        flattenReq p = { instrument := p.instrument, action := .SELL
                         quantity := p.quantity, orderType := .MARKET
                         timeInForce := .DAY, limitPrice := none, stopPrice := none }) ∧
      (p.quantity < 0 →
        flattenReq p = { instrument := p.instrument, action := .BUY
                         quantity := -p.quantity, orderType := .MARKET
                         timeInForce := .DAY, limitPrice := none, stopPrice := none })) ∧
    (findTargetPosition base positions = .ok none →
      flatten_position positions instrument = (.error "No open position found", [])) := by
  constructor
  · intro p hp
    refine ⟨?_, ?_, ?_⟩
    · unfold flatten_position
      simp only [hbase, hp]
    · intro hpos
      unfold flattenReq
      have ha : p.quantity > 0 := hpos
      have habs : (p.quantity.natAbs : Int) = p.quantity :=
        Int.natAbs_of_nonneg (le_of_lt hpos)
      simp [ha, habs]
    · intro hneg
      unfold flattenReq
      have ha : ¬ (p.quantity > 0) := by omega
      have habs : (p.quantity.natAbs : Int) = -p.quantity :=
        Int.ofNat_natAbs_of_nonpos (le_of_lt hneg)
      simp [ha, habs]
  · intro hnone
    unfold flatten_position
    simp only [hbase, hnone]

def c6positions : List Position := [⟨"NQ MAR26", 0, 0⟩, ⟨"ES DEC25", 3, 6500⟩]

theorem flatten_position_spec_witness :
    (normalize_instrument "ES 12-25" = some "ES" ∧
      findTargetPosition "ES" c6positions = .ok (some ⟨"ES DEC25", 3, 6500⟩) ∧
      flatten_position [] "ES 12-25" = (.error "No open position found", [])) ∧
    (∀ p, findTargetPosition "ES" c6positions = .ok (some p) →
      flatten_position c6positions "ES 12-25" = (.ok (flattenReq p), [flattenReq p]) ∧
      (0 < p.quantity →
        flattenReq p = { instrument := p.instrument, action := .SELL
                         quantity := p.quantity, orderType := .MARKET
                         timeInForce := .DAY, limitPrice := none, stopPrice := none }) ∧
      (p.quantity < 0 →
        flattenReq p = { instrument := p.instrument, action := .BUY
                         quantity := -p.quantity, orderType := .MARKET
                         timeInForce := .DAY, limitPrice := none, stopPrice := none })) :=
  ⟨⟨by decide, by decide,
      ((flatten_position_spec [] "ES 12-25" "ES" (by decide)).2 (by decide))⟩,
    (flatten_position_spec c6positions "ES 12-25" "ES" (by decide)).1⟩

/-! ## Signal translator (`execution/signal_translator.py`) -/

inductive SignalType
  | LONG_ENTRY
  | SHORT_ENTRY
  | EXIT
  | EXIT_LONG
  | EXIT_SHORT
deriving DecidableEq, Repr

/-- A decoded signal dict.  `_normalize_signal_type` is the identity on
already-typed `SignalType` values, which is the case for every claim
below, so the field carries the normalized type. -/
structure FullSignal where
  signal_type : SignalType
  instrument : String
  price : Option ℚ
  stop_price : Option ℚ
  quantity : Option Int
deriving DecidableEq, Repr

/-- The `SignalTranslator` configuration used by these claims. -/
structure TranslatorConfig where
  default_quantity : Int
  use_market_orders : Bool
deriving DecidableEq, Repr

/-! ### C7: `should_enter_trade` -/

/-- `SignalTranslator.check_existing_position`: quantity of the first
position whose instrument matches exactly, `none` when flat. -/
def check_existing_position (positions : List Position) (instrument : String) :
    Option Int :=
  (positions.find? fun p => p.instrument = instrument).map Position.quantity

/-- `SignalTranslator.should_enter_trade`: the decision and the list of
`flatten_position` calls issued (by instrument). -/
def should_enter_trade (positions : List Position) (sig : FullSignal)
    (allow_reversals : Bool) : Bool × List String :=
  match check_existing_position positions sig.instrument with
  | none => (true, [])
  | some q =>
    if q = 0 then (true, [])
    else if q > 0 then
      match sig.signal_type with
      | .LONG_ENTRY => (false, [])
      | .SHORT_ENTRY =>
        if allow_reversals then (true, [sig.instrument]) else (false, [])
      | _ => (true, [])
    else
      match sig.signal_type with
      | .SHORT_ENTRY => (false, [])
      | .LONG_ENTRY =>
        if allow_reversals then (true, [sig.instrument]) else (false, [])
      | _ => (true, [])

/-- **C7.** `should_enter_trade` allows any signal against a flat
position (absent or zero quantity); suppresses a same-direction entry
against an existing position; suppresses an opposite-direction entry when
`allow_reversals` is off; and when `allow_reversals` is on it allows the
opposite-direction entry after issuing exactly one `flatten_position`
call for that instrument. -/
theorem should_enter_trade_spec (positions : List Position) (sig : FullSignal)
    (q : Int) :
    (check_existing_position positions sig.instrument = none →
      ∀ allow, should_enter_trade positions sig allow = (true, [])) ∧
    (check_existing_position positions sig.instrument = some 0 →
      ∀ allow, should_enter_trade positions sig allow = (true, [])) ∧
    (check_existing_position positions sig.instrument = some q → 0 < q →
      sig.signal_type = .LONG_ENTRY →
      ∀ allow, should_enter_trade positions sig allow = (false, [])) ∧
    (check_existing_position positions sig.instrument = some q → q < 0 →
      sig.signal_type = .SHORT_ENTRY →
      ∀ allow, should_enter_trade positions sig allow = (false, [])) ∧
    (check_existing_position positions sig.instrument = some q → 0 < q →
      sig.signal_type = .SHORT_ENTRY →
      should_enter_trade positions sig false = (false, []) ∧
      should_enter_trade positions sig true = (true, [sig.instrument])) ∧
    (check_existing_position positions sig.instrument = some q → q < 0 →
      sig.signal_type = .LONG_ENTRY →
      should_enter_trade positions sig false = (false, []) ∧
      should_enter_trade positions sig true = (true, [sig.instrument])) := by
  refine ⟨?_, ?_, ?_, ?_, ?_, ?_⟩
  · intro h allow
    simp [should_enter_trade, h]
  · intro h allow
    simp [should_enter_trade, h]
  · intro h hq hsig allow
    have h0 : ¬ (q = 0) := by omega
    simp [should_enter_trade, h, h0, hq, hsig]
  · intro h hq hsig allow
    have h0 : ¬ (q = 0) := by omega
    have h1 : ¬ (q > 0) := by omega
    simp [should_enter_trade, h, h0, h1, hq, hsig]
  · intro h hq hsig
    have h0 : ¬ (q = 0) := by omega
    constructor <;> simp [should_enter_trade, h, h0, hq, hsig]
  · intro h hq hsig
    have h0 : ¬ (q = 0) := by omega
    have h1 : ¬ (q > 0) := by omega
    constructor <;> simp [should_enter_trade, h, h0, h1, hq, hsig]

def c7positions : List Position := [⟨"ES 03-25", 2, 6500⟩]

def c7sigShort : FullSignal := ⟨.SHORT_ENTRY, "ES 03-25", none, none, none⟩

theorem should_enter_trade_spec_witness :
    (check_existing_position c7positions c7sigShort.instrument = some 2 ∧
      (0 : Int) < 2 ∧ c7sigShort.signal_type = .SHORT_ENTRY) ∧
      (should_enter_trade c7positions c7sigShort false = (false, []) ∧
        should_enter_trade c7positions c7sigShort true =
          (true, [c7sigShort.instrument])) :=
  ⟨⟨by decide, by decide, by decide⟩,
    ((should_enter_trade_spec c7positions c7sigShort 2).2.2.2.2.1
      (by decide) (by decide) (by decide))⟩

/-! ### C10: `process_signal` quantity resolution -/

/-- Python truthiness for optional ints: `None` and `0` are falsy. -/
def pyTruthyInt : Option Int → Option Int
  | none => none
  | some x => if x = 0 then none else some x

/-- `qty = quantity or signal.get("quantity") or self.default_quantity`. -/
def pyQtyOr (a b : Option Int) (c : Int) : Int :=
  ((pyTruthyInt a).getD ((pyTruthyInt b).getD c))

/-- `_handle_long_entry`: stop price wins, then market (flag set or no
price), then limit at the signal price. -/
def _handle_long_entry (cfg : TranslatorConfig) (instrument : String)
    (quantity : Int) (price stop_price : Option ℚ) : OrderRequest :=
  match stop_price with
  | some sp =>
    { instrument := instrument, action := .BUY, quantity := quantity
      orderType := .STOP_MARKET, timeInForce := .DAY
      limitPrice := none, stopPrice := some sp }
  | none =>
    if cfg.use_market_orders then
      { instrument := instrument, action := .BUY, quantity := quantity
        orderType := .MARKET, timeInForce := .DAY
        limitPrice := none, stopPrice := none }
    else
      match price with
      | none =>
        { instrument := instrument, action := .BUY, quantity := quantity
          orderType := .MARKET, timeInForce := .DAY
          limitPrice := none, stopPrice := none }
      | some pr =>
        { instrument := instrument, action := .BUY, quantity := quantity
          orderType := .LIMIT, timeInForce := .DAY
          limitPrice := some pr, stopPrice := none }

/-- `_handle_short_entry` (mirror image with `SELL_SHORT`). -/
def _handle_short_entry (cfg : TranslatorConfig) (instrument : String)
    (quantity : Int) (price stop_price : Option ℚ) : OrderRequest :=
  match stop_price with
  | some sp =>
    { instrument := instrument, action := .SELL_SHORT, quantity := quantity
      orderType := .STOP_MARKET, timeInForce := .DAY
      limitPrice := none, stopPrice := some sp }
  | none =>
    if cfg.use_market_orders then
      { instrument := instrument, action := .SELL_SHORT, quantity := quantity
        orderType := .MARKET, timeInForce := .DAY
        limitPrice := none, stopPrice := none }
    else
      match price with
      | none =>
        { instrument := instrument, action := .SELL_SHORT, quantity := quantity
          orderType := .MARKET, timeInForce := .DAY
          limitPrice := none, stopPrice := none }
      | some pr =>
        { instrument := instrument, action := .SELL_SHORT, quantity := quantity
          orderType := .LIMIT, timeInForce := .DAY
          limitPrice := some pr, stopPrice := none }

/-- The orders submitted and `flatten_position` calls issued by one
`process_signal` call. -/
structure SignalEffects where
  requests : List OrderRequest
  flatten_calls : List String
deriving DecidableEq, Repr

/-- `SignalTranslator.process_signal`. -/
def process_signal (cfg : TranslatorConfig) (sig : FullSignal)
    (quantity : Option Int) : SignalEffects :=
  let qty := pyQtyOr quantity sig.quantity cfg.default_quantity
  match sig.signal_type with
  | .LONG_ENTRY =>
    ⟨[_handle_long_entry cfg sig.instrument qty sig.price sig.stop_price], []⟩
  | .SHORT_ENTRY =>
    ⟨[_handle_short_entry cfg sig.instrument qty sig.price sig.stop_price], []⟩
  | .EXIT => ⟨[], [sig.instrument]⟩
  | .EXIT_LONG =>
    ⟨[{ instrument := sig.instrument, action := .SELL, quantity := qty
        orderType := .MARKET, timeInForce := .DAY
        limitPrice := none, stopPrice := none }], []⟩
  | .EXIT_SHORT =>
    ⟨[{ instrument := sig.instrument, action := .BUY_TO_COVER, quantity := qty
        orderType := .MARKET, timeInForce := .DAY
        limitPrice := none, stopPrice := none }], []⟩

lemma pyQtyOr_zeroish (a b : Option Int) (c : Int)
    (ha : a = none ∨ a = some 0) (hb : b = none ∨ b = some 0) :
    pyQtyOr a b c = c := by
  rcases ha with rfl | rfl <;> rcases hb with rfl | rfl <;>
    simp [pyQtyOr, pyTruthyInt]

lemma pyQtyOr_ne_zero (a b : Option Int) (c : Int) (hc : c ≠ 0) :
    pyQtyOr a b c ≠ 0 := by
  unfold pyQtyOr pyTruthyInt
  rcases a with _ | x
  · rcases b with _ | y
    · simpa using hc
    · by_cases hy : y = 0
      · simpa [hy] using hc
      · simpa [hy] using hy
  · by_cases hx : x = 0
    · simp only [hx, if_true]
      rcases b with _ | y
      · simpa using hc
      · by_cases hy : y = 0
        · simpa [hy] using hc
        · simpa [hy] using hy
    · simpa [hx] using hx

lemma handle_long_entry_quantity (cfg : TranslatorConfig) (instrument : String)
    (quantity : Int) (price stop_price : Option ℚ) :
    (_handle_long_entry cfg instrument quantity price stop_price).quantity =
      quantity := by
  unfold _handle_long_entry
  rcases stop_price with _ | sp
  · by_cases hm : cfg.use_market_orders
    · simp [hm]
    · rcases price with _ | pr <;> simp [hm]
  · simp

lemma handle_short_entry_quantity (cfg : TranslatorConfig) (instrument : String)
    (quantity : Int) (price stop_price : Option ℚ) :
    (_handle_short_entry cfg instrument quantity price stop_price).quantity =
      quantity := by
  unfold _handle_short_entry
  rcases stop_price with _ | sp
  · by_cases hm : cfg.use_market_orders
    · simp [hm]
    · rcases price with _ | pr <;> simp [hm]
  · simp

lemma process_signal_request_quantity (cfg : TranslatorConfig)
    (sig : FullSignal) (q : Option Int) :
    ∀ r ∈ (process_signal cfg sig q).requests,
      r.quantity = pyQtyOr q sig.quantity cfg.default_quantity := by
  intro r hr
  cases hs : sig.signal_type <;>
    simp only [process_signal, hs, List.mem_singleton, List.not_mem_nil] at hr
  · rw [hr, handle_long_entry_quantity]
  · rw [hr, handle_short_entry_quantity]
  · rw [hr]
  · rw [hr]

/-- **C10 (amended).** Whenever the explicit `quantity` argument and the
signal's `quantity` field are each absent (`None`) or `0`, every order
`process_signal` submits carries the configured `default_quantity`
(`quantity or signal quantity or default`); and provided the configured
`default_quantity` is itself nonzero, `process_signal` can never submit a
zero-quantity order.  (When `default_quantity = 0` the silent fallback
does produce a zero-quantity order — see the counterexample.) -/
theorem process_signal_quantity_spec (cfg : TranslatorConfig)
    (sig : FullSignal) (q : Option Int) :
    ((q = none ∨ q = some 0) → (sig.quantity = none ∨ sig.quantity = some 0) →
      ∀ r ∈ (process_signal cfg sig q).requests,
        r.quantity = cfg.default_quantity) ∧
    (cfg.default_quantity ≠ 0 →
      ∀ r ∈ (process_signal cfg sig q).requests, r.quantity ≠ 0) := by
  constructor
  · intro hq hsq r hr
    rw [process_signal_request_quantity cfg sig q r hr,
      pyQtyOr_zeroish q sig.quantity cfg.default_quantity hq hsq]
  · intro hd r hr
    rw [process_signal_request_quantity cfg sig q r hr]
    exact pyQtyOr_ne_zero q sig.quantity cfg.default_quantity hd

def c10sig : FullSignal := ⟨.LONG_ENTRY, "ES 03-25", none, none, some 0⟩

theorem process_signal_quantity_spec_witness :
    ((some (0 : Int) = none ∨ some (0 : Int) = some 0) ∧
      (c10sig.quantity = none ∨ c10sig.quantity = some 0) ∧
      (3 : Int) ≠ 0) ∧
      ((∀ r ∈ (process_signal ⟨3, true⟩ c10sig (some 0)).requests,
        r.quantity = (3 : Int)) ∧
      (∀ r ∈ (process_signal ⟨3, true⟩ c10sig (some 0)).requests,
        r.quantity ≠ 0)) :=
  ⟨⟨by decide, by decide, by decide⟩,
    (process_signal_quantity_spec ⟨3, true⟩ c10sig (some 0)).1
      (by decide) (by decide),
    (process_signal_quantity_spec ⟨3, true⟩ c10sig (some 0)).2 (by decide)⟩

/-- **C10 counterexample.** With `default_quantity = 0` (constructible —
the constructor performs no validation), a `LONG_ENTRY` signal with no
explicit quantity makes `process_signal` submit a market order of
quantity `0`: a zero-quantity order *can* be produced. -/
theorem process_signal_zero_quantity_counterexample :
    (process_signal ⟨0, true⟩ ⟨.LONG_ENTRY, "ES 03-25", none, none, none⟩
        none).requests =
      [{ instrument := "ES 03-25", action := .BUY, quantity := 0
         orderType := .MARKET, timeInForce := .DAY
         limitPrice := none, stopPrice := none }] := by decide

/-! ## C8: Execution Client retry policy (`execution/crosstrade_client.py`)

The HTTP transport is an oracle `env : Nat → Outcome` consumed one
outcome per `_request` call; the second component of each modelled call
is the number of outcomes consumed (= attempts made).  Response payloads
are abstracted to the fields the client control flow reads; the
`Retry-After` header is abstracted to its best-effort parsed value. -/

/-- The exception taxonomy of `execution/exceptions.py`.  Every
constructor models a subclass of `CrossTradeError`. -/
inductive CTErr
  | authenticationError (msg : String)
  | rateLimitError (retry_after : Option Int)
  | accountNotFoundError (msg : String)
  | orderError (msg : String)
  | insufficientMarginError (msg : String)
  | crossTradeError (msg : String)
deriving DecidableEq, Repr

/-- `str(e)`.  `RateLimitError.__init__` builds its message with
`if retry_after` — Python falsiness, so `0` also yields the short form. -/
def CTErr.msg : CTErr → String
  | .authenticationError m => m
  | .rateLimitError none => "Rate limit exceeded."
  | .rateLimitError (some n) =>
    if n = 0 then "Rate limit exceeded."
    else "Rate limit exceeded. Retry after " ++ toString n ++ " seconds."
  | .accountNotFoundError m => m
  | .orderError m => m
  | .insufficientMarginError m => m
  | .crossTradeError m => m

/-- `isinstance(e, RateLimitError)` — the class has no subclasses. -/
def CTErr.isRateLimit : CTErr → Bool
  | .rateLimitError _ => true
  | _ => false

/-- Does `hay` start with `needle` (character-wise)? -/
def listStartsWith : (hay needle : List Char) → Bool
  | _, [] => true
  | [], _ :: _ => false
  | c :: cs, d :: ds => c = d && listStartsWith cs ds

/-- Substring search (character-wise). -/
def listContains : (hay needle : List Char) → Bool
  | [], needle => needle.isEmpty
  | c :: cs, needle => listStartsWith (c :: cs) needle || listContains cs needle

/-- Python `needle in hay` on strings. -/
def strContains (hay needle : String) : Bool :=
  listContains hay.toList needle.toList

/-- Python `str.lower()` (character-wise, as used on ASCII messages). -/
def pyLower (s : String) : String := String.mk (s.toList.map Char.toLower)

structure HttpResp where
  status : Nat
  retry_after : Option Int
  submitSuccess : Bool
  orderId : String
  orderIds : List String
deriving DecidableEq, Repr

/-- One observable outcome of a physical `_request` attempt. -/
inductive Outcome
  | tokenTimeout
  | resp (r : HttpResp)
  | netTimeout
  | connError
deriving DecidableEq, Repr

/-- `CrossTradeClient._request`: rate-limiter wait failure and
status-code mapping (401 / 429 / 404 / ≥400), transport failures become
generic `CrossTradeError`s. -/
def _request (o : Outcome) : Except CTErr HttpResp :=
  match o with
  | .tokenTimeout => .error (.rateLimitError none)
  | .netTimeout => .error (.crossTradeError "Request timeout")
  | .connError => .error (.crossTradeError "Connection error")
  | .resp r =>
    if r.status = 401 then .error (.authenticationError "Invalid API key")
    else if r.status = 429 then .error (.rateLimitError r.retry_after)
    else if r.status = 404 then .error (.accountNotFoundError "Resource not found")
    else if 400 ≤ r.status then .error (.crossTradeError "API error")
    else .ok r

/-- The `@retry(exceptions=RateLimitError, tries=3, delay=2)` decorator
from the `retry` package: call the body; on a `RateLimitError` with tries
remaining, sleep the fixed 2-second delay and call again; any other
exception propagates immediately.  `body idx` returns its result plus the
next unconsumed transport index. -/
def retryOnRateLimit {α : Type} (body : Nat → Except CTErr α × Nat) :
    Nat → Nat → Except CTErr α × Nat
  | 0, idx => body idx
  | 1, idx => body idx
  | tries + 2, idx =>
    match body idx with
    | (.ok a, j) => (.ok a, j)
    | (.error e, j) =>
      if e.isRateLimit then retryOnRateLimit body (tries + 1) j
      else (.error e, j)

/-- `CrossTradeClient.get_positions` (the parsed payload is irrelevant to
the retry policy and elided). -/
def get_positions (env : Nat → Outcome) : Except CTErr Unit × Nat :=
  retryOnRateLimit (fun idx => ((_request (env idx)).map fun _ => (), idx + 1)) 3 0

/-- The inner `get_orders` call of `submit_order` (carries its own
decorator); yields the listed order ids. -/
def get_orders_from (env : Nat → Outcome) (idx : Nat) :
    Except CTErr (List String) × Nat :=
  retryOnRateLimit (fun j => ((_request (env j)).map fun r => r.orderIds, j + 1)) 3 idx

/-- The `except CrossTradeError` clause at the end of `submit_order`:
every error of the taxonomy is a `CrossTradeError`, so each one — the
`RateLimitError`s included — is re-raised as `InsufficientMarginError`
(when the message mentions margin) or `OrderError`. -/
def convert_order_error (e : CTErr) : CTErr :=
  if strContains (pyLower e.msg) "margin" then .insufficientMarginError e.msg
  else .orderError e.msg

/-- The body of `CrossTradeClient.submit_order` (inside the decorator):
place the order, then fetch the resulting order by id; the whole `try`
block converts any `CrossTradeError` via `convert_order_error`.  An
`Order` is abstracted to its id. -/
def submit_order_body (env : Nat → Outcome) (req : OrderRequest) (idx : Nat) :
    Except CTErr String × Nat :=
  match _request (env idx) with
  | .error e => (.error (convert_order_error e), idx + 1)
  | .ok r =>
    if r.submitSuccess then
      match get_orders_from env (idx + 1) with
      | (.ok _, j) => (.ok r.orderId, j)
      | (.error e, j) => (.error (convert_order_error e), j)
    else
      (.error (convert_order_error (.orderError "Order submission failed")), idx + 1)

/-- `CrossTradeClient.submit_order` with its own
`@retry(exceptions=RateLimitError, tries=3, delay=2)` decorator. -/
def submit_order (env : Nat → Outcome) (req : OrderRequest) :
    Except CTErr String × Nat :=
  retryOnRateLimit (submit_order_body env req) 3 0

/-- A transport that answers HTTP 429 to every attempt. -/
def env429 : Nat → Outcome := fun _ => .resp ⟨429, none, false, "", []⟩

/-- A transport that answers HTTP 401 to every attempt. -/
def env401 : Nat → Outcome := fun _ => .resp ⟨401, none, false, "", []⟩

def c8req : OrderRequest :=
  { instrument := "ES 03-25", action := .BUY, quantity := 1
    orderType := .MARKET, timeInForce := .DAY
    limitPrice := none, stopPrice := none }

/-- **C8 (code bug).** Against a persistently rate-limited transport,
`get_positions` makes the declared 3 attempts and surfaces the
`RateLimitError`, and a 401 propagates after a single attempt — but
`submit_order` makes exactly **one** attempt and surfaces an
`OrderError`: its `except CrossTradeError` block catches the
`RateLimitError` (a `CrossTradeError` subclass) and re-raises it as
`OrderError`, so its own `@retry(exceptions=RateLimitError, tries=3,
delay=2)` decorator can never fire. -/
theorem submit_order_not_retried_on_rate_limit :
    get_positions env429 = (.error (.rateLimitError none), 3) ∧
    get_positions env401 = (.error (.authenticationError "Invalid API key"), 1) ∧
    submit_order env429 c8req = (.error (.orderError "Rate limit exceeded."), 1) := by
  decide

/-! ## C3 (amended): append-then-close in the same bucket, silent restart
on a gap -/

/-- **C3 (amended).** For every bar after the first received (matching
symbol, open period): when the bar's timestamp falls in the **same**
calendar bucket as the current period start, `add_bar` first appends the
bar's OHLCV into the accumulated period and only then closes and returns
the period iff the next minute would cross into a new bucket; but when
the bar falls into a **later** bucket (after a gap in the data) the
accumulated period is silently replaced — never returned — by a fresh
period holding only the incoming bar, which is itself returned
immediately iff it is the last minute of its own bucket. -/
theorem add_bar_same_bucket_or_gap (st : AggState) (b cb : Bar) (ps : Ts)
    (hsym : b.symbol = st.symbol)
    (hcb : st.current_bar = some cb)
    (hps : st.period_start = some ps) :
    add_bar st b =
      (if _is_new_period st.period_minutes ps b.date then
        (if _is_period_complete st.period_minutes b.date b.date then
          (.ok (some ⟨st.symbol, b.date, b.date_l, b.open_, b.high, b.low,
              b.close, b.volume, true⟩),
            ⟨st.symbol, st.period_minutes, none, none, []⟩)
        else
          (.ok none,
            ⟨st.symbol, st.period_minutes,
              some ⟨st.symbol, b.date, b.date_l, b.open_, b.high, b.low,
                b.close, b.volume, true⟩,
              some b.date, [b]⟩))
      else
        (if _is_period_complete st.period_minutes ps b.date then
          (.ok (some ⟨cb.symbol, cb.date, b.date_l, cb.open_,
              max cb.high b.high, min cb.low b.low, b.close,
              cb.volume + b.volume, cb.cpl⟩),
            ⟨st.symbol, st.period_minutes, none, none, []⟩)
        else
          (.ok none,
            ⟨st.symbol, st.period_minutes,
              some ⟨cb.symbol, cb.date, b.date_l, cb.open_,
                max cb.high b.high, min cb.low b.low, b.close,
                cb.volume + b.volume, cb.cpl⟩,
              some ps, st.bars_in_period ++ [b]⟩))) := by
  by_cases hn : _is_new_period st.period_minutes ps b.date = true
  · by_cases hc : _is_period_complete st.period_minutes b.date b.date = true
    · simp [add_bar, hps, hcb, hsym, _add_to_current_period, _start_new_period,
        _complete_period, hn, hc]
    · simp [add_bar, hps, hcb, hsym, _add_to_current_period, _start_new_period,
        _complete_period, hn, hc]
  · by_cases hc : _is_period_complete st.period_minutes ps b.date = true
    · simp [add_bar, hps, hcb, hsym, _add_to_current_period, _start_new_period,
        _complete_period, hn, hc]
    · simp [add_bar, hps, hcb, hsym, _add_to_current_period, _start_new_period,
        _complete_period, hn, hc]

/-- A concrete open 5-minute period at 09:30 with one accumulated bar. -/
def c3state : AggState :=
  ⟨"ES.c.0", 5, some (mkMinuteBar "ES.c.0" 570 100), some ⟨570, 0⟩,
    [mkMinuteBar "ES.c.0" 570 100]⟩

theorem add_bar_same_bucket_or_gap_witness :
    ((mkMinuteBar "ES.c.0" 577 50).symbol = c3state.symbol ∧
      c3state.current_bar = some (mkMinuteBar "ES.c.0" 570 100) ∧
      c3state.period_start = some ⟨570, 0⟩) ∧
      add_bar c3state (mkMinuteBar "ES.c.0" 577 50) =
        (if _is_new_period c3state.period_minutes ⟨570, 0⟩
            (mkMinuteBar "ES.c.0" 577 50).date then
          (if _is_period_complete c3state.period_minutes
              (mkMinuteBar "ES.c.0" 577 50).date
              (mkMinuteBar "ES.c.0" 577 50).date then
            (.ok (some ⟨c3state.symbol, (mkMinuteBar "ES.c.0" 577 50).date,
                (mkMinuteBar "ES.c.0" 577 50).date_l,
                (mkMinuteBar "ES.c.0" 577 50).open_,
                (mkMinuteBar "ES.c.0" 577 50).high,
                (mkMinuteBar "ES.c.0" 577 50).low,
                (mkMinuteBar "ES.c.0" 577 50).close,
                (mkMinuteBar "ES.c.0" 577 50).volume, true⟩),
              ⟨c3state.symbol, c3state.period_minutes, none, none, []⟩)
          else
            (.ok none,
              ⟨c3state.symbol, c3state.period_minutes,
                some ⟨c3state.symbol, (mkMinuteBar "ES.c.0" 577 50).date,
                  (mkMinuteBar "ES.c.0" 577 50).date_l,
                  (mkMinuteBar "ES.c.0" 577 50).open_,
                  (mkMinuteBar "ES.c.0" 577 50).high,
                  (mkMinuteBar "ES.c.0" 577 50).low,
                  (mkMinuteBar "ES.c.0" 577 50).close,
                  (mkMinuteBar "ES.c.0" 577 50).volume, true⟩,
                some (mkMinuteBar "ES.c.0" 577 50).date,
                [mkMinuteBar "ES.c.0" 577 50]⟩))
        else
          (if _is_period_complete c3state.period_minutes ⟨570, 0⟩
              (mkMinuteBar "ES.c.0" 577 50).date then
            (.ok (some ⟨(mkMinuteBar "ES.c.0" 570 100).symbol,
                (mkMinuteBar "ES.c.0" 570 100).date,
                (mkMinuteBar "ES.c.0" 577 50).date_l,
                (mkMinuteBar "ES.c.0" 570 100).open_,
                max (mkMinuteBar "ES.c.0" 570 100).high
                  (mkMinuteBar "ES.c.0" 577 50).high,
                min (mkMinuteBar "ES.c.0" 570 100).low
                  (mkMinuteBar "ES.c.0" 577 50).low,
                (mkMinuteBar "ES.c.0" 577 50).close,
                (mkMinuteBar "ES.c.0" 570 100).volume +
                  (mkMinuteBar "ES.c.0" 577 50).volume,
                (mkMinuteBar "ES.c.0" 570 100).cpl⟩),
              ⟨c3state.symbol, c3state.period_minutes, none, none, []⟩)
          else
            (.ok none,
              ⟨c3state.symbol, c3state.period_minutes,
                some ⟨(mkMinuteBar "ES.c.0" 570 100).symbol,
                  (mkMinuteBar "ES.c.0" 570 100).date,
                  (mkMinuteBar "ES.c.0" 577 50).date_l,
                  (mkMinuteBar "ES.c.0" 570 100).open_,
                  max (mkMinuteBar "ES.c.0" 570 100).high
                    (mkMinuteBar "ES.c.0" 577 50).high,
                  min (mkMinuteBar "ES.c.0" 570 100).low
                    (mkMinuteBar "ES.c.0" 577 50).low,
                  (mkMinuteBar "ES.c.0" 577 50).close,
                  (mkMinuteBar "ES.c.0" 570 100).volume +
                    (mkMinuteBar "ES.c.0" 577 50).volume,
                  (mkMinuteBar "ES.c.0" 570 100).cpl⟩,
                some ⟨570, 0⟩, c3state.bars_in_period ++
                  [mkMinuteBar "ES.c.0" 577 50]⟩))) :=
  ⟨⟨by decide, by decide, by decide⟩,
    add_bar_same_bucket_or_gap c3state (mkMinuteBar "ES.c.0" 577 50)
      (mkMinuteBar "ES.c.0" 570 100) ⟨570, 0⟩ (by decide) (by decide) (by decide)⟩

end VbtSimLive
